import Mathlib

/-!
Verification of the MedTeach rounding application's core logic against its
specification.  The program text (two variants of the top-level component,
`part_000` and `part_001`, plus `geminiService.ts`) is shallowly embedded
here: narrative text is `List Char`, the regex-driven scans are modelled as
fuel-indexed structural recursions faithful to the JavaScript regex engine's
leftmost-match / greedy / backtracking behaviour, and the component's state
is an explicit record acted on by pure step functions.

Modelling conventions:
* JavaScript `\s` (and `String.trim`) is modelled by the six ASCII
  whitespace characters (space, tab, newline, carriage return, vertical
  tab, form feed); inputs are assumed to use only these whitespace
  characters.
* Case-insensitive matching is modelled by `Char.toLower` folding.
* The asynchronous Gemini calls are modelled as oracle arguments
  (`Except` for the transport outcome, an `Option`-valued function for
  `JSON.parse`).
-/

/-- JavaScript `\s` restricted to ASCII: space, tab, LF, VT, FF, CR. -/
def isWsChar (c : Char) : Bool :=
  c = ' ' || c = '\t' || c = '\n' || c = '\x0b' || c = '\x0c' || c = '\r'

/-- Sentence terminator characters of the chunking regexes: `.`, `!`, `?`. -/
def isTermChar (c : Char) : Bool :=
  c = '.' || c = '!' || c = '?'

/-- Character class `[:\s]` of the Final Diagnosis regexes. -/
def isSepChar (c : Char) : Bool :=
  c = ':' || isWsChar c

/-- JavaScript `String.prototype.trim` on character lists. -/
def trimCh (cs : List Char) : List Char :=
  ((cs.dropWhile isWsChar).reverse.dropWhile isWsChar).reverse

/-- Remove every whitespace character (used to compare text modulo whitespace). -/
def stripWs (cs : List Char) : List Char :=
  cs.filter (fun c => !isWsChar c)

/-- Index of the last element satisfying `p`, if any. -/
def lastIdxP (p : Char → Bool) (l : List Char) : Option Nat :=
  match l.reverse.findIdx? p with
  | some r => some (l.length - 1 - r)
  | none => none

/-- JavaScript `String.prototype.includes` on character lists. -/
def containsSeq (pat : List Char) : List Char → Bool
  | [] => pat.isEmpty
  | c :: cs => pat.isPrefixOf (c :: cs) || containsSeq pat cs

/-- JavaScript `text.split('\n')` (keeps empty pieces; `"" ↦ [""]`). -/
def splitLines : List Char → List (List Char)
  | [] => [[]]
  | c :: cs =>
    if c = '\n' then [] :: splitLines cs
    else
      match splitLines cs with
      | [] => [[c]]
      | p :: ps => (c :: p) :: ps

/-- The literal of the `Final Diagnosis` regexes, lower-cased (15 characters). -/
def fdLiteral : List Char := "final diagnosis".data

/-- Does `cs` start with the case-insensitive literal `Final Diagnosis`? -/
def fdLiteralAt (cs : List Char) : Bool :=
  (cs.take 15).map Char.toLower = fdLiteral

/--
Match `[:\s]+([^\n]+)` at the start of `w` with the regex engine's greedy
backtracking: the separator run is as long as possible subject to at least
one non-newline character remaining for the capture.  Returns the number of
characters consumed and the captured value.  When `w` consists entirely of
separator characters the engine backtracks to the last non-newline
separator and captures exactly that character.
-/
def fdTail (w : List Char) : Option (Nat × List Char) :=
  let s := w.takeWhile isSepChar
  if s.isEmpty then none
  else
    let rest := w.drop s.length
    if !rest.isEmpty then
      let v := rest.takeWhile (fun c => c ≠ '\n')
      some (s.length + v.length, v)
    else
      match lastIdxP (fun c => c ≠ '\n') (s.drop 1) with
      | some k => some (k + 2, [(s.drop 1).getD k ' '])
      | none => none

/--
Attempt of `/Final Diagnosis[:\s]+[^\n]+/i` anchored at the current
position; returns the total matched length (part_000 line 61 uses this to
delete matches).
-/
def matchFDAt (cs : List Char) : Option Nat :=
  if fdLiteralAt cs then
    (fdTail (cs.drop 15)).map (fun pr => 15 + pr.1)
  else none

/-- Does `/Final Diagnosis[:\s]+[^\n]+/i` match anywhere in `cs`? -/
def hasFDMatch : List Char → Bool
  | [] => false
  | c :: cs => (matchFDAt (c :: cs)).isSome || hasFDMatch cs

/--
Leftmost search of `/Final Diagnosis[:\s]+([^\n]+)/i`, returning the
captured group (part_000 line 119 / part_001 line 90 apply this to a
trimmed line).
-/
def findFDCapture : List Char → Option (List Char)
  | [] => none
  | c :: cs =>
    if fdLiteralAt (c :: cs) then
      match fdTail ((c :: cs).drop 15) with
      | some pr => some pr.2
      | none => findFDCapture cs
    else findFDCapture cs

/--
`caseText.replace(/Final Diagnosis[:\s]+[^\n]+/gi, '')` (part_000 line 61),
as a fuel-indexed scan: at each position either delete a match or keep the
character and advance.  Every match consumes at least 17 characters, so
`length + 1` fuel always suffices.
-/
def replaceFDF : Nat → List Char → List Char
  | 0, cs => cs
  | _ + 1, [] => []
  | fuel + 1, c :: cs =>
    match matchFDAt (c :: cs) with
    | some k => replaceFDF fuel ((c :: cs).drop k)
    | none => c :: replaceFDF fuel cs

def replaceFD (cs : List Char) : List Char :=
  replaceFDF (cs.length + 1) cs

/-- Shared `([^.!?]+)([.!?]+)` prefix of the two sentence regexes. -/
def sentCore (cs : List Char) : Option (List Char × List Char × List Char) :=
  let a := cs.takeWhile (fun c => !isTermChar c)
  if a.isEmpty then none
  else
    let r1 := cs.drop a.length
    let b := r1.takeWhile isTermChar
    if b.isEmpty then none
    else some (a, b, r1.drop b.length)

/--
Anchored attempt of part_000's sentence regex `/[^.!?]+[.!?]+(?:\s+|$)/`
(line 65): after the terminator run, either end of input or a greedy
nonempty whitespace run.  Returns (match, rest).
-/
def sentMatchAt000 (cs : List Char) : Option (List Char × List Char) :=
  match sentCore cs with
  | none => none
  | some (a, b, r2) =>
    if r2.isEmpty then some (a ++ b, [])
    else
      let w := r2.takeWhile isWsChar
      if w.isEmpty then none else some (a ++ b ++ w, r2.drop w.length)

/--
Anchored attempt of part_001's sentence regex `/[^.!?]+[.!?]+(?:\s|$)/`
(line 45): after the terminator run, either end of input or exactly one
whitespace character.
-/
def sentMatchAt001 (cs : List Char) : Option (List Char × List Char) :=
  match sentCore cs with
  | none => none
  | some (a, b, r2) =>
    match r2 with
    | [] => some (a ++ b, [])
    | c :: rest => if isWsChar c then some (a ++ b ++ [c], rest) else none

/--
Global regex scan (`String.prototype.match` with the `g` flag): collect
successive leftmost matches, skipping one character after a failed anchored
attempt.  Fueled; every match consumes at least two characters.
-/
def sentScanF (m1 : List Char → Option (List Char × List Char)) :
    Nat → List Char → List (List Char)
  | 0, _ => []
  | _ + 1, [] => []
  | fuel + 1, c :: cs =>
    match m1 (c :: cs) with
    | some (s, rest) => s :: sentScanF m1 fuel rest
    | none => sentScanF m1 fuel cs

def sentences000 (cs : List Char) : List (List Char) :=
  sentScanF sentMatchAt000 (cs.length + 1) cs

def sentences001 (cs : List Char) : List (List Char) :=
  sentScanF sentMatchAt001 (cs.length + 1) cs

/-- `text.match(...) || [text]`: a regex `match` returning no matches is `null`. -/
def sentencesOr (orig : List Char) (scanned : List (List Char)) : List (List Char) :=
  if scanned.isEmpty then [orig] else scanned

/-- The grouping loop `for (i = 0; i < n; i += 5) slice(i, i + 5)`. -/
def chunk5F : Nat → List (List Char) → List (List (List Char))
  | 0, _ => []
  | _ + 1, [] => []
  | fuel + 1, s :: ss => ((s :: ss).take 5) :: chunk5F fuel ((s :: ss).drop 5)

def chunk5 (ss : List (List Char)) : List (List (List Char)) :=
  chunk5F (ss.length + 1) ss

/--
Chunk computation of part_000's `startCase` (lines 60-73): strip the
Final Diagnosis matches, trim, split the whole text into sentences (the
whole text as a single fallback sentence when the regex finds nothing),
group five sentences per chunk, join and trim each group, and keep only
nonempty chunks.
-/
def startChunks000 (caseText : List Char) : List (List Char) :=
  let textWithoutSolution := trimCh (replaceFD caseText)
  let sentences := sentencesOr textWithoutSolution (sentences000 textWithoutSolution)
  ((chunk5 sentences).map (fun g => trimCh g.flatten)).filter (fun c => !c.isEmpty)

/--
Anchored attempt of the paragraph separator regex `/\n\s*\n/` (part_001
line 40): a newline, then a greedy whitespace run backtracked to the last
newline inside it.  Returns the matched length.
-/
def sepMatchAt : List Char → Option Nat
  | [] => none
  | c :: cs =>
    if c = '\n' then
      match lastIdxP (fun x => x = '\n') (cs.takeWhile isWsChar) with
      | some j => some (j + 2)
      | none => none
    else none

/-- Does `/\n\s*\n/` match anywhere in `cs`? -/
def hasSepMatch : List Char → Bool
  | [] => false
  | c :: cs => (sepMatchAt (c :: cs)).isSome || hasSepMatch cs

/-- `caseText.split(/\n\s*\n/)`, fueled; every separator consumes ≥ 2 characters. -/
def paraSplitF : Nat → List Char → List (List Char)
  | 0, cs => [cs]
  | _ + 1, [] => [[]]
  | fuel + 1, c :: cs =>
    match sepMatchAt (c :: cs) with
    | some k => [] :: paraSplitF fuel ((c :: cs).drop k)
    | none =>
      match paraSplitF fuel cs with
      | [] => [[c]]
      | p :: ps => (c :: p) :: ps

def paraSplit (cs : List Char) : List (List Char) :=
  paraSplitF (cs.length + 1) cs

/-- `caseText.split(/\n\s*\n/).filter(p => p.trim().length > 0)` (part_001 line 40). -/
def paragraphs (caseText : List Char) : List (List Char) :=
  (paraSplit caseText).filter (fun p => !(trimCh p).isEmpty)

/--
Chunk computation of part_001's `startCase` (lines 39-50): split into
blank-line-separated paragraphs, split each paragraph into sentences
(fallback to the paragraph itself), and push every five-sentence group
joined and trimmed — with no marker stripping and no empty-chunk filter.
-/
def startChunks001 (caseText : List Char) : List (List Char) :=
  ((paragraphs caseText).map (fun para =>
    let sentences := sentencesOr para (sentences001 para)
    (chunk5 sentences).map (fun g => trimCh g.flatten))).flatten

/-- The per-line match used by `extractFinalDiagnosis`: trim the line, search
the capture regex, and trim the capture (part_000 lines 118-120). -/
def lineFD (l : List Char) : Option (List Char) :=
  (findFDCapture (trimCh l)).map trimCh

/-- The bottom-up loop of `extractFinalDiagnosis`, applied to the reversed line list. -/
def goExtract : List (List Char) → List Char
  | [] => []
  | l :: rest =>
    match lineFD l with
    | some v => v
    | none => goExtract rest

/--
`extractFinalDiagnosis` (part_000 lines 114-123 = part_001 lines 86-94):
split on newlines and scan from the last line backward for the first line
whose trimmed text matches `/Final Diagnosis[:\s]+([^\n]+)/i`; return the
trimmed capture, or the empty string when no line matches.
-/
def extractFinalDiagnosis (text : List Char) : List Char :=
  goExtract (splitLines text).reverse

/-- True when some line of `text` matches the extraction regex. -/
def hasMarkerLine (text : List Char) : Bool :=
  (splitLines text).any (fun l => (lineFD l).isSome)

/-- `CaseEntry` of types.ts. -/
structure CaseEntry where
  id : List Char
  text : List Char
  relevanceScore : Option Int
deriving DecidableEq

/-- `TeachingPoint` of types.ts. -/
structure TeachingPoint where
  title : List Char
  description : List Char
  level : List Char
  imageUrl : Option (List Char)
deriving DecidableEq

/-- The session state held by the `App` component (both variants share the fields). -/
structure AppState where
  caseText : List Char
  chunks : List (List Char)
  visibleIndex : Nat
  isCaseLoaded : Bool
  reviewMode : Bool
  finalDiagnosis : List Char
  differentials : List CaseEntry
  labs : List CaseEntry
  diagnostics : List CaseEntry
  treatments : List CaseEntry
  teachingPoints : List TeachingPoint
  studentLevel : List Char
  loadingPoints : Bool
deriving DecidableEq

/-- The `useState` initial values. -/
def initState : AppState :=
  { caseText := []
    chunks := []
    visibleIndex := 0
    isCaseLoaded := false
    reviewMode := false
    finalDiagnosis := []
    differentials := []
    labs := []
    diagnostics := []
    treatments := []
    teachingPoints := []
    studentLevel := "MS-3".data
    loadingPoints := false }

/--
part_000's `startCase` (lines 57-85) after the textarea upload set
`caseText := t`: rejected when the trimmed text is empty, otherwise chunks
are computed, the first block is shown, and the per-case collections are
cleared.  `loadingPoints` is untouched.
-/
def startCase000 (t : List Char) (s : AppState) : AppState :=
  if (trimCh t).isEmpty then { s with caseText := t }
  else
    { s with
      caseText := t
      chunks := startChunks000 t
      visibleIndex := 1
      isCaseLoaded := true
      reviewMode := false
      differentials := []
      labs := []
      diagnostics := []
      treatments := []
      finalDiagnosis := []
      teachingPoints := [] }

/-- part_001's `startCase` (lines 36-62); identical except for the chunking. -/
def startCase001 (t : List Char) (s : AppState) : AppState :=
  if (trimCh t).isEmpty then { s with caseText := t }
  else
    { s with
      caseText := t
      chunks := startChunks001 t
      visibleIndex := 1
      isCaseLoaded := true
      reviewMode := false
      differentials := []
      labs := []
      diagnostics := []
      treatments := []
      finalDiagnosis := []
      teachingPoints := [] }

/-- `nextParagraph` (part_000 lines 87-99 = part_001 lines 64-71); the
scroll animation is presentation-only and not modelled. -/
def nextParagraph (s : AppState) : AppState :=
  if s.visibleIndex < s.chunks.length then { s with visibleIndex := s.visibleIndex + 1 }
  else s

/-- The sentinel string of part_000's `handleReview` (line 127). -/
def sentinel000 : List Char := "Diagnosis not specified in text".data

/-- part_000's `handleReview` (lines 125-130): `extracted || sentinel`. -/
def handleReview000 (s : AppState) : AppState :=
  let extracted := extractFinalDiagnosis s.caseText
  { s with
    finalDiagnosis := if extracted.isEmpty then sentinel000 else extracted
    reviewMode := true }

/-- part_001's `handleReview` (lines 96-100): stores the raw extraction,
which may be empty. -/
def handleReview001 (s : AppState) : AppState :=
  { s with finalDiagnosis := extractFinalDiagnosis s.caseText, reviewMode := true }

/-- part_001's render fallback for the diagnosis panel (line 378):
`finalDiagnosis || "Consult Attending (Diagnosis Not Found)"`. -/
def displayedDiagnosis001 (s : AppState) : List Char :=
  if s.finalDiagnosis.isEmpty then "Consult Attending (Diagnosis Not Found)".data
  else s.finalDiagnosis

/-- part_000's `reset` (lines 157-165): note that the four entry lists and
`loadingPoints` are not cleared. -/
def reset000 (s : AppState) : AppState :=
  { s with
    isCaseLoaded := false
    reviewMode := false
    caseText := []
    finalDiagnosis := []
    teachingPoints := []
    chunks := []
    visibleIndex := 0 }

/-- part_001's `reset` (lines 129-135): additionally leaves `chunks` and
`visibleIndex` untouched. -/
def reset001 (s : AppState) : AppState :=
  { s with
    isCaseLoaded := false
    reviewMode := false
    caseText := []
    finalDiagnosis := []
    teachingPoints := [] }

/-- The user actions of the disclosure state machine. -/
inductive CaseAction where
  | start (t : List Char)
  | next
  | review
  | reset
deriving DecidableEq

/-- One step of the part_000 machine. -/
def step000 (s : AppState) : CaseAction → AppState
  | .start t => startCase000 t s
  | .next => nextParagraph s
  | .review => handleReview000 s
  | .reset => reset000 s

/-- Run a sequence of actions from the initial state (part_000 machine). -/
def run000 (as : List CaseAction) : AppState :=
  as.foldl step000 initState

/-- JavaScript `scores[i] || 0`: `undefined` and `0` (the falsy number)
both yield zero. -/
def jsOrZero (o : Option Int) : Int :=
  match o with
  | none => 0
  | some v => if v = 0 then 0 else v

/--
The positional score merge
`prev.map((d, i) => ({ ...d, relevanceScore: scores[i] || 0 }))`
(part_000 line 142 = part_001 line 114).
-/
def mergeScores : List CaseEntry → List Int → List CaseEntry
  | [], _ => []
  | d :: ds, scores =>
    { d with relevanceScore := some (jsOrZero scores.head?) } :: mergeScores ds scores.tail

/-- The outbound requests of the review orchestrator. -/
inductive ServiceCall where
  | points (diagnosis : List Char) (level : List Char)
  | assess (diagnosis : List Char) (diffs : List (List Char))
deriving DecidableEq

/-- Result of a fetch run: final state, requests issued, and whether the
loading indicator was shown (`setLoadingPoints(true)` executed). -/
structure FetchRun where
  state : AppState
  calls : List ServiceCall
  loadingShown : Bool
deriving DecidableEq

/--
part_000's `fetchTeachingData` (lines 132-149) with the awaited service
results supplied as oracles `pts` and `scores`.  The guard skips everything
when the diagnosis is empty or contains "not specified"; otherwise the
loading flag is raised, teaching points are replaced, scores are merged
when the differential list is nonempty, and the flag is cleared in the
`finally` block.
-/
def fetchTeachingData (s : AppState) (pts : List TeachingPoint) (scores : List Int) :
    FetchRun :=
  if s.finalDiagnosis.isEmpty || containsSeq ("not specified".data) s.finalDiagnosis then
    { state := s, calls := [], loadingShown := false }
  else
    let s1 := { s with teachingPoints := pts }
    if s.differentials.isEmpty then
      { state := { s1 with loadingPoints := false }
        calls := [ServiceCall.points s.finalDiagnosis s.studentLevel]
        loadingShown := true }
    else
      { state :=
          { s1 with
            differentials := mergeScores s.differentials scores
            loadingPoints := false }
        calls :=
          [ServiceCall.points s.finalDiagnosis s.studentLevel,
           ServiceCall.assess s.finalDiagnosis (s.differentials.map (fun d => d.text))]
        loadingShown := true }

/--
part_001's `fetchTeaching` (lines 102-121): the guard is only
`if (!finalDiagnosis) return`, and the differential-scoring request is made
only when the differential list is nonempty.
-/
def fetchTeaching (s : AppState) (pts : List TeachingPoint) (scores : List Int) :
    FetchRun :=
  if s.finalDiagnosis.isEmpty then
    { state := s, calls := [], loadingShown := false }
  else
    let s1 := { s with teachingPoints := pts }
    if s.differentials.isEmpty then
      { state := { s1 with loadingPoints := false }
        calls := [ServiceCall.points s.finalDiagnosis s.studentLevel]
        loadingShown := true }
    else
      { state :=
          { s1 with
            differentials := mergeScores s.differentials scores
            loadingPoints := false }
        calls :=
          [ServiceCall.points s.finalDiagnosis s.studentLevel,
           ServiceCall.assess s.finalDiagnosis (s.differentials.map (fun d => d.text))]
        loadingShown := true }

/-- `response.text || "[]"` of geminiService.ts. -/
structure GenResponse where
  text : List Char
deriving DecidableEq

def payloadOf (r : GenResponse) : List Char :=
  if r.text.isEmpty then "[]".data else r.text

/--
`getTeachingPoints` (geminiService.ts lines 7-43).  The transport outcome
of `ai.models.generateContent` is the oracle `gen`; `JSON.parse` (plus the
implicit cast to `TeachingPoint[]`) is the oracle `parseTP`, with `none`
modelling a parse exception.  Note the `await` is outside the `try` block:
a transport error propagates.
-/
def getTeachingPoints {E : Type} (apiKey : List Char) (gen : Except E GenResponse)
    (parseTP : List Char → Option (List TeachingPoint)) :
    Except E (List TeachingPoint) :=
  if apiKey.isEmpty then .ok []
  else
    match gen with
    | .error e => .error e
    | .ok response =>
      match parseTP (payloadOf response) with
      | some pts => .ok pts
      | none => .ok []

/--
`assessDifferentials` (geminiService.ts lines 45-73); on a missing key or a
parse failure it returns `differentials.map(() => 0)`, but a transport
error propagates.
-/
def assessDifferentials {E : Type} (apiKey : List Char) (gen : Except E GenResponse)
    (parseNums : List Char → Option (List Int)) (differentials : List (List Char)) :
    Except E (List Int) :=
  if apiKey.isEmpty then .ok (differentials.map (fun _ => 0))
  else
    match gen with
    | .error e => .error e
    | .ok response =>
      match parseNums (payloadOf response) with
      | some v => .ok v
      | none => .ok (differentials.map (fun _ => 0))

/-- No two adjacent whitespace characters (used for the refinement claim). -/
def noDoubleWs : List Char → Bool
  | [] => true
  | [_] => true
  | a :: b :: t => (!(isWsChar a && isWsChar b)) && noDoubleWs (b :: t)

/-! ### Basic whitespace and trimming lemmas -/

theorem stripWs_append (a b : List Char) : stripWs (a ++ b) = stripWs a ++ stripWs b := by
  simp [stripWs, List.filter_append]

theorem stripWs_dropWhileWs (l : List Char) : stripWs (l.dropWhile isWsChar) = stripWs l := by
  induction l with
  | nil => rfl
  | cons c cs ih =>
    by_cases h : isWsChar c
    · rw [List.dropWhile_cons_of_pos h, ih]
      simp [stripWs, List.filter_cons, h]
    · rw [List.dropWhile_cons_of_neg h]

theorem stripWs_reverse (l : List Char) : stripWs l.reverse = (stripWs l).reverse := by
  simp [stripWs, List.filter_reverse]

theorem stripWs_trimCh (l : List Char) : stripWs (trimCh l) = stripWs l := by
  unfold trimCh
  rw [stripWs_reverse, stripWs_dropWhileWs, stripWs_reverse, List.reverse_reverse,
    stripWs_dropWhileWs]

theorem dropWhile_idem (p : Char → Bool) (l : List Char) :
    (l.dropWhile p).dropWhile p = l.dropWhile p := by
  induction l with
  | nil => rfl
  | cons c cs ih =>
    by_cases h : p c
    · rw [List.dropWhile_cons_of_pos h]; exact ih
    · rw [List.dropWhile_cons_of_neg h, List.dropWhile_cons_of_neg h]

theorem head?_dropWhile_false (p : Char → Bool) (l : List Char) (c : Char)
    (h : (l.dropWhile p).head? = some c) : p c = false := by
  induction l with
  | nil => simp at h
  | cons a as ih =>
    by_cases ha : p a
    · rw [List.dropWhile_cons_of_pos ha] at h; exact ih h
    · rw [List.dropWhile_cons_of_neg ha] at h
      simp at h
      subst h
      simpa using ha

theorem getLast?_dropWhile (p : Char → Bool) (l : List Char) (h : l.dropWhile p ≠ []) :
    (l.dropWhile p).getLast? = l.getLast? := by
  induction l with
  | nil => simp at h
  | cons a as ih =>
    by_cases ha : p a
    · rw [List.dropWhile_cons_of_pos ha] at h ⊢
      cases as with
      | nil => simp at h
      | cons b t => rw [ih h, List.getLast?_cons_cons]
    · rw [List.dropWhile_cons_of_neg ha]

theorem trimCh_eq_nil_iff (l : List Char) : trimCh l = [] ↔ stripWs l = [] := by
  constructor
  · intro h
    have := stripWs_trimCh l
    rw [h] at this
    exact this.symm
  · intro h
    have hall : ∀ c ∈ l, isWsChar c = true := by
      intro c hc
      have := List.filter_eq_nil_iff.mp h c hc
      simpa using this
    have hdrop : l.dropWhile isWsChar = [] := List.dropWhile_eq_nil_iff.mpr hall
    simp [trimCh, hdrop]

theorem trimCh_idem (l : List Char) : trimCh (trimCh l) = trimCh l := by
  have core : ∀ v : List Char, v = (l.dropWhile isWsChar).reverse.dropWhile isWsChar →
      trimCh v.reverse = v.reverse := by
    intro v hv
    have step1 : v.reverse.dropWhile isWsChar = v.reverse := by
      cases hr : v.reverse with
      | nil => simp
      | cons c t =>
        have hne : v ≠ [] := by
          intro h0
          rw [h0] at hr
          simp at hr
        have hlast : v.getLast? = some c := by
          rw [← List.head?_reverse, hr]; rfl
        have hlast2 : ((l.dropWhile isWsChar).reverse).getLast? = some c := by
          rw [← getLast?_dropWhile isWsChar _ (hv ▸ hne), ← hv, hlast]
        have hhead : (l.dropWhile isWsChar).head? = some c := by
          rw [← List.getLast?_reverse]; exact hlast2
        have hc : isWsChar c = false := head?_dropWhile_false isWsChar l c hhead
        rw [← hr, hr, List.dropWhile_cons_of_neg (by simp [hc])]
    unfold trimCh
    rw [step1, List.reverse_reverse, hv, dropWhile_idem]
  exact core _ rfl

/-! ### Flatten and grouping lemmas -/

theorem flatten_filter_nonempty (xs : List (List Char)) :
    (xs.filter (fun c => !c.isEmpty)).flatten = xs.flatten := by
  induction xs with
  | nil => rfl
  | cons c cs ih =>
    by_cases h : c.isEmpty
    · have hc : c = [] := List.isEmpty_iff.mp h
      simp [List.filter_cons, h, hc, ih]
    · simp [List.filter_cons, h, ih]

theorem chunk5F_flatten (fuel : Nat) (ss : List (List Char)) (h : ss.length < fuel) :
    (chunk5F fuel ss).flatten = ss := by
  induction fuel generalizing ss with
  | zero => omega
  | succ f ih =>
    cases ss with
    | nil => rfl
    | cons s rest =>
      have hlen : ((s :: rest).drop 5).length < f := by
        rw [List.length_drop, List.length_cons]
        simp only [List.length_cons] at h
        omega
      simp only [chunk5F, List.flatten_cons, ih _ hlen, List.take_append_drop]

theorem chunk5_flatten (ss : List (List Char)) : (chunk5 ss).flatten = ss :=
  chunk5F_flatten _ _ (Nat.lt_succ_self _)

theorem stripWs_flatten_map_trim (gs : List (List (List Char))) :
    stripWs ((gs.map (fun g => trimCh g.flatten)).flatten) = stripWs gs.flatten.flatten := by
  induction gs with
  | nil => rfl
  | cons g rest ih =>
    simp only [List.map_cons, List.flatten_cons, stripWs_append, stripWs_trimCh,
      List.flatten_append, ih]

theorem stripWs_chunks_of_sentences (ss : List (List Char)) :
    stripWs (((chunk5 ss).map (fun g => trimCh g.flatten)).flatten) = stripWs ss.flatten := by
  rw [stripWs_flatten_map_trim, chunk5_flatten]

theorem startChunks000_content (t : List Char) :
    stripWs (startChunks000 t).flatten =
      stripWs (sentencesOr (trimCh (replaceFD t))
        (sentences000 (trimCh (replaceFD t)))).flatten := by
  unfold startChunks000
  rw [flatten_filter_nonempty, stripWs_chunks_of_sentences]

theorem startChunks001_content (t : List Char) :
    stripWs (startChunks001 t).flatten =
      stripWs (((paragraphs t).map
        (fun p => (sentencesOr p (sentences001 p)).flatten)).flatten) := by
  unfold startChunks001
  induction paragraphs t with
  | nil => rfl
  | cons p ps ih =>
    simp only [List.map_cons, List.flatten_cons, List.flatten_append, stripWs_append, ih,
      stripWs_chunks_of_sentences]

/-! ### Extraction characterization -/

theorem goExtract_eq_last_match (rs : List (List Char)) :
    goExtract rs =
      (((rs.reverse.filter (fun l => (lineFD l).isSome)).getLast?.bind lineFD).getD []) := by
  induction rs with
  | nil => rfl
  | cons l rest ih =>
    rw [List.reverse_cons, List.filter_append]
    by_cases hp : (lineFD l).isSome
    · obtain ⟨v, hv⟩ := Option.isSome_iff_exists.mp hp
      have : List.filter (fun l => (lineFD l).isSome) [l] = [l] := by
        simp [List.filter_cons, hp]
      rw [this, List.getLast?_concat]
      simp [goExtract, hv]
    · have h0 : lineFD l = none := Option.not_isSome_iff_eq_none.mp hp
      have : List.filter (fun l => (lineFD l).isSome) [l] = [] := by
        simp [List.filter_cons, hp]
      rw [this, List.append_nil]
      simp only [goExtract, h0]
      exact ih

theorem extract_eq_last_line (t : List Char) :
    extractFinalDiagnosis t =
      ((((splitLines t).filter (fun l => (lineFD l).isSome)).getLast?.bind lineFD).getD []) := by
  unfold extractFinalDiagnosis
  rw [goExtract_eq_last_match, List.reverse_reverse]

theorem extract_eq_nil_of_no_marker (t : List Char) (h : hasMarkerLine t = false) :
    extractFinalDiagnosis t = [] := by
  rw [extract_eq_last_line]
  have : (splitLines t).filter (fun l => (lineFD l).isSome) = [] := by
    rw [List.filter_eq_nil_iff]
    intro a ha
    have := List.any_eq_false.mp h a ha
    simpa using this
  rw [this]
  rfl

/-! ### Identity lemmas under absence of matches -/

theorem replaceFDF_eq_self (cs : List Char) (h : hasFDMatch cs = false) (fuel : Nat)
    (hf : cs.length < fuel) : replaceFDF fuel cs = cs := by
  induction fuel generalizing cs with
  | zero => omega
  | succ f ih =>
    cases cs with
    | nil => rfl
    | cons c rest =>
      unfold hasFDMatch at h
      have h1 : matchFDAt (c :: rest) = none := by
        cases hm : matchFDAt (c :: rest) with
        | none => rfl
        | some k => rw [hm] at h; simp at h
      have h2 : hasFDMatch rest = false := by
        rw [h1] at h; simpa using h
      have hlen : rest.length < f := by
        simp only [List.length_cons] at hf; omega
      simp only [replaceFDF, h1, ih rest h2 hlen]

theorem replaceFD_eq_self (cs : List Char) (h : hasFDMatch cs = false) : replaceFD cs = cs :=
  replaceFDF_eq_self cs h _ (Nat.lt_succ_self _)

theorem paraSplitF_eq_single (cs : List Char) (h : hasSepMatch cs = false) (fuel : Nat)
    (hf : cs.length < fuel) : paraSplitF fuel cs = [cs] := by
  induction fuel generalizing cs with
  | zero => omega
  | succ f ih =>
    cases cs with
    | nil => rfl
    | cons c rest =>
      unfold hasSepMatch at h
      have h1 : sepMatchAt (c :: rest) = none := by
        cases hm : sepMatchAt (c :: rest) with
        | none => rfl
        | some k => rw [hm] at h; simp at h
      have h2 : hasSepMatch rest = false := by
        rw [h1] at h; simpa using h
      have hlen : rest.length < f := by
        simp only [List.length_cons] at hf; omega
      simp only [paraSplitF, h1, ih rest h2 hlen]

theorem paraSplit_eq_single (cs : List Char) (h : hasSepMatch cs = false) :
    paraSplit cs = [cs] :=
  paraSplitF_eq_single cs h _ (Nat.lt_succ_self _)

/-! ### Structure of sentence matches -/

theorem sentCore_term (cs a b r2 : List Char) (h : sentCore cs = some (a, b, r2)) :
    b ≠ [] ∧ ∀ c ∈ b, isTermChar c = true := by
  unfold sentCore at h
  by_cases h1 : (cs.takeWhile (fun c => !isTermChar c)).isEmpty
  · simp [h1] at h
  · by_cases h2 :
        ((cs.drop (cs.takeWhile (fun c => !isTermChar c)).length).takeWhile isTermChar).isEmpty
    · simp [h1, h2] at h
    · simp only [h1, h2, if_false, Bool.false_eq_true, Option.some.injEq, Prod.mk.injEq] at h
      obtain ⟨ha, hb, hr⟩ := h
      constructor
      · rw [← hb]
        exact fun h0 => h2 (by rw [h0]; rfl)
      · intro c hc
        rw [← hb] at hc
        exact List.mem_takeWhile_imp hc

theorem sentCore_rest (cs a b r2 : List Char) (h : sentCore cs = some (a, b, r2)) :
    r2 = cs.drop (a.length + b.length) := by
  unfold sentCore at h
  by_cases h1 : (cs.takeWhile (fun c => !isTermChar c)).isEmpty
  · simp [h1] at h
  · by_cases h2 :
        ((cs.drop (cs.takeWhile (fun c => !isTermChar c)).length).takeWhile isTermChar).isEmpty
    · simp [h1, h2] at h
    · simp only [h1, h2, if_false, Bool.false_eq_true, Option.some.injEq, Prod.mk.injEq] at h
      obtain ⟨ha, hb, hr⟩ := h
      rw [← hr, ← hb, ← ha, List.drop_drop]

theorem sentMatchAt000_props (cs s rest : List Char) (h : sentMatchAt000 cs = some (s, rest)) :
    (∃ c ∈ s, isTermChar c = true) ∧ ∃ n, rest = cs.drop n := by
  unfold sentMatchAt000 at h
  cases hc : sentCore cs with
  | none => rw [hc] at h; simp at h
  | some abr =>
    obtain ⟨a, b, r2⟩ := abr
    rw [hc] at h
    obtain ⟨hb, hbterm⟩ := sentCore_term cs a b r2 hc
    have hr2 : r2 = cs.drop (a.length + b.length) := sentCore_rest cs a b r2 hc
    obtain ⟨c0, hc0⟩ := List.exists_mem_of_ne_nil b hb
    by_cases he : r2.isEmpty
    · simp only [he, if_true] at h
      obtain ⟨hs, hrest⟩ := Prod.mk.injEq .. ▸ Option.some.injEq .. ▸ h
      refine ⟨⟨c0, ?_, hbterm c0 hc0⟩, cs.length, ?_⟩
      · rw [← hs]; exact List.mem_append_right a hc0
      · rw [← hrest, List.drop_length]
    · simp only [he, if_false, Bool.false_eq_true] at h
      by_cases hw : (r2.takeWhile isWsChar).isEmpty
      · simp [hw] at h
      · simp only [hw, if_false, Bool.false_eq_true, Option.some.injEq, Prod.mk.injEq] at h
        obtain ⟨hs, hrest⟩ := h
        refine ⟨⟨c0, ?_, hbterm c0 hc0⟩,
          a.length + b.length + (r2.takeWhile isWsChar).length, ?_⟩
        · rw [← hs]
          exact List.mem_append_left _ (List.mem_append_right a hc0)
        · rw [← hrest, hr2, List.drop_drop]

theorem sentMatchAt001_props (cs s rest : List Char) (h : sentMatchAt001 cs = some (s, rest)) :
    (∃ c ∈ s, isTermChar c = true) ∧ ∃ n, rest = cs.drop n := by
  unfold sentMatchAt001 at h
  cases hc : sentCore cs with
  | none => rw [hc] at h; simp at h
  | some abr =>
    obtain ⟨a, b, r2⟩ := abr
    rw [hc] at h
    obtain ⟨hb, hbterm⟩ := sentCore_term cs a b r2 hc
    have hr2 : r2 = cs.drop (a.length + b.length) := sentCore_rest cs a b r2 hc
    obtain ⟨c0, hc0⟩ := List.exists_mem_of_ne_nil b hb
    cases hr : r2 with
    | nil =>
      rw [hr] at h
      simp only [Option.some.injEq, Prod.mk.injEq] at h
      obtain ⟨hs, hrest⟩ := h
      refine ⟨⟨c0, ?_, hbterm c0 hc0⟩, cs.length, ?_⟩
      · rw [← hs]; exact List.mem_append_right a hc0
      · rw [← hrest, List.drop_length]
    | cons d t =>
      rw [hr] at h
      by_cases hd : isWsChar d
      · simp only [hd, if_true, Option.some.injEq, Prod.mk.injEq] at h
        obtain ⟨hs, hrest⟩ := h
        refine ⟨⟨c0, ?_, hbterm c0 hc0⟩, a.length + b.length + 1, ?_⟩
        · rw [← hs]
          exact List.mem_append_left _ (List.mem_append_right a hc0)
        · have : t = r2.drop 1 := by rw [hr]; rfl
          rw [← hrest, this, hr2, List.drop_drop]
      · simp [hd] at h

theorem sentScanF_term (m1 : List Char → Option (List Char × List Char))
    (hm : ∀ cs s rest, m1 cs = some (s, rest) → ∃ c ∈ s, isTermChar c = true)
    (fuel : Nat) : ∀ cs s, s ∈ sentScanF m1 fuel cs → ∃ c ∈ s, isTermChar c = true := by
  induction fuel with
  | zero => intro cs s h; simp [sentScanF] at h
  | succ f ih =>
    intro cs s h
    cases cs with
    | nil => simp [sentScanF] at h
    | cons c rest =>
      unfold sentScanF at h
      cases hm1 : m1 (c :: rest) with
      | some pr =>
        obtain ⟨s1, r1⟩ := pr
        rw [hm1] at h
        rcases List.mem_cons.mp h with h | h
        · exact h ▸ hm _ _ _ hm1
        · exact ih _ _ h
      | none =>
        rw [hm1] at h
        exact ih _ _ h

theorem sentences000_term (cs : List Char) :
    ∀ s ∈ sentences000 cs, ∃ c ∈ s, isTermChar c = true :=
  sentScanF_term sentMatchAt000 (fun cs s rest h => (sentMatchAt000_props cs s rest h).1) _ cs

theorem sentences001_term (cs : List Char) :
    ∀ s ∈ sentences001 cs, ∃ c ∈ s, isTermChar c = true :=
  sentScanF_term sentMatchAt001 (fun cs s rest h => (sentMatchAt001_props cs s rest h).1) _ cs

/-! ### Nonemptiness of produced chunks -/

theorem chunk5F_mem (fuel : Nat) :
    ∀ ss g, g ∈ chunk5F fuel ss → g ≠ [] ∧ ∀ x ∈ g, x ∈ ss := by
  induction fuel with
  | zero => intro ss g h; simp [chunk5F] at h
  | succ f ih =>
    intro ss g h
    cases ss with
    | nil => simp [chunk5F] at h
    | cons s rest =>
      unfold chunk5F at h
      rcases List.mem_cons.mp h with h | h
      · subst h
        refine ⟨?_, fun x hx => List.mem_of_mem_take hx⟩
        intro h0
        have hlen := congrArg List.length h0
        simp [List.length_take] at hlen
      · obtain ⟨hne, hmem⟩ := ih _ _ h
        exact ⟨hne, fun x hx => List.mem_of_mem_drop (hmem x hx)⟩

theorem chunk5_mem (ss g : List (List Char)) (h : g ∈ chunk5 ss) :
    g ≠ [] ∧ ∀ x ∈ g, x ∈ ss :=
  chunk5F_mem _ ss g h

theorem chunk5_ne_nil (ss : List (List Char)) (h : ss ≠ []) : chunk5 ss ≠ [] := by
  cases ss with
  | nil => exact absurd rfl h
  | cons s rest =>
    show chunk5F ((s :: rest).length + 1) (s :: rest) ≠ []
    rw [List.length_cons]
    simp [chunk5F]

theorem chunk5_single (x : List Char) : chunk5 [x] = [[x]] := rfl

theorem sentencesOr_ne_nil (o : List Char) (s : List (List Char)) : sentencesOr o s ≠ [] := by
  unfold sentencesOr
  by_cases h : s.isEmpty
  · simp [h]
  · simp only [h, if_false, Bool.false_eq_true]
    exact List.isEmpty_eq_false.mp (Bool.not_eq_true _ ▸ h)

theorem term_not_ws (c : Char) (h : isTermChar c = true) : isWsChar c = false := by
  simp only [isTermChar, Bool.or_eq_true, decide_eq_true_eq] at h
  rcases h with (h | h) | h <;> subst h <;> decide

theorem stripWs_ne_nil_of_mem (l : List Char) (c : Char) (hc : c ∈ l)
    (hw : isWsChar c = false) : stripWs l ≠ [] := by
  intro h
  have := List.filter_eq_nil_iff.mp h c hc
  simp [hw] at this

theorem trimCh_ne_nil_of_mem (l : List Char) (c : Char) (hc : c ∈ l)
    (hw : isWsChar c = false) : trimCh l ≠ [] := by
  intro h
  exact stripWs_ne_nil_of_mem l c hc hw (trimCh_eq_nil_iff l |>.mp h)

theorem trim_flatten_ne_nil_of_term (g : List (List Char)) (s : List Char) (hs : s ∈ g)
    (c : Char) (hc : c ∈ s) (hterm : isTermChar c = true) : trimCh g.flatten ≠ [] :=
  trimCh_ne_nil_of_mem _ c (List.mem_flatten.mpr ⟨s, hs, hc⟩) (term_not_ws c hterm)

/--
Any group chunk produced from a sentence list obtained by `sentencesOr`
trims to a nonempty block, provided the fallback text itself trims
nonempty.  Covers both the regex-scan case (every sentence carries a
terminator character) and the single-fallback-sentence case.
-/
theorem trim_flatten_group_ne_nil (orig : List Char) (scanned : List (List Char))
    (hterm : ∀ s ∈ scanned, ∃ c ∈ s, isTermChar c = true)
    (horig : trimCh orig ≠ []) (g : List (List Char))
    (hg : g ∈ chunk5 (sentencesOr orig scanned)) : trimCh g.flatten ≠ [] := by
  unfold sentencesOr at hg
  by_cases hs : scanned.isEmpty
  · rw [if_pos hs, chunk5_single] at hg
    have : g = [orig] := List.mem_singleton.mp hg
    subst this
    simpa using horig
  · rw [if_neg hs] at hg
    obtain ⟨hne, hmem⟩ := chunk5_mem _ _ hg
    obtain ⟨s, hsg⟩ := List.exists_mem_of_ne_nil g hne
    obtain ⟨c, hcs, hct⟩ := hterm s (hmem s hsg)
    exact trim_flatten_ne_nil_of_term g s hsg c hcs hct

theorem startChunks000_ne_nil (t : List Char) (h : trimCh (replaceFD t) ≠ []) :
    startChunks000 t ≠ [] := by
  have hidem : trimCh (trimCh (replaceFD t)) = trimCh (replaceFD t) := trimCh_idem _
  unfold startChunks000
  show (((chunk5 (sentencesOr (trimCh (replaceFD t))
      (sentences000 (trimCh (replaceFD t))))).map (fun g => trimCh g.flatten)).filter
      (fun c => !c.isEmpty)) ≠ []
  have hall : ∀ g ∈ chunk5 (sentencesOr (trimCh (replaceFD t))
      (sentences000 (trimCh (replaceFD t)))), trimCh g.flatten ≠ [] := by
    intro g hg
    exact trim_flatten_group_ne_nil (trimCh (replaceFD t))
      (sentences000 (trimCh (replaceFD t))) (sentences000_term _)
      (by rw [hidem]; exact h) g hg
  have hne : chunk5 (sentencesOr (trimCh (replaceFD t))
      (sentences000 (trimCh (replaceFD t)))) ≠ [] :=
    chunk5_ne_nil _ (sentencesOr_ne_nil _ _)
  obtain ⟨g0, hg0⟩ := List.exists_mem_of_ne_nil _ hne
  have hmem : trimCh g0.flatten ∈
      ((chunk5 (sentencesOr (trimCh (replaceFD t))
        (sentences000 (trimCh (replaceFD t))))).map (fun g => trimCh g.flatten)).filter
        (fun c => !c.isEmpty) := by
    refine List.mem_filter.mpr ⟨List.mem_map_of_mem _ hg0, ?_⟩
    simp [List.isEmpty_eq_false.mpr (hall g0 hg0)]
  exact List.ne_nil_of_mem hmem

theorem mem_startChunks000_ne_nil (t : List Char) (c : List Char)
    (h : c ∈ startChunks000 t) : c ≠ [] := by
  unfold startChunks000 at h
  have := (List.mem_filter.mp h).2
  simpa [List.isEmpty_eq_false] using this

/-! ### Paragraph split: separators are whitespace-only -/

theorem lastIdxP_lt_length (p : Char → Bool) (l : List Char) (j : Nat)
    (h : lastIdxP p l = some j) : j < l.length := by
  unfold lastIdxP at h
  cases hr : l.reverse.findIdx? p with
  | none => rw [hr] at h; simp at h
  | some r =>
    rw [hr] at h
    have hlt : r < l.reverse.length := (List.findIdx?_eq_some_iff_findIdx_eq.mp hr).1
    rw [List.length_reverse] at hlt
    simp only [Option.some.injEq] at h
    omega

theorem sepMatchAt_ws (cs : List Char) (k : Nat) (h : sepMatchAt cs = some k) :
    (∀ c ∈ cs.take k, isWsChar c = true) ∧ 2 ≤ k := by
  cases cs with
  | nil => simp [sepMatchAt] at h
  | cons c rest =>
    simp only [sepMatchAt] at h
    by_cases hc : c = '\n'
    · subst hc
      rw [if_pos rfl] at h
      cases hj : lastIdxP (fun x => x = '\n') (rest.takeWhile isWsChar) with
      | none => rw [hj] at h; simp at h
      | some j =>
        rw [hj] at h
        have hk : k = j + 2 := by simpa using h.symm
        subst hk
        have hjlt : j < (rest.takeWhile isWsChar).length := lastIdxP_lt_length _ _ _ hj
        refine ⟨?_, by omega⟩
        intro x hx
        rw [List.take_succ_cons] at hx
        rcases List.mem_cons.mp hx with hx | hx
        · subst hx; decide
        · have hsplit : rest = rest.takeWhile isWsChar ++ rest.dropWhile isWsChar :=
            (List.takeWhile_append_dropWhile isWsChar rest).symm
          rw [hsplit, List.take_append_of_le_length (by omega)] at hx
          exact List.mem_takeWhile_imp (List.mem_of_mem_take hx)
    · simp [hc] at h

theorem paraSplitF_flatten_cons (f : Nat) (c : Char) (rest : List Char)
    (hm : sepMatchAt (c :: rest) = none) :
    (paraSplitF (f + 1) (c :: rest)).flatten = c :: (paraSplitF f rest).flatten := by
  simp only [paraSplitF, hm]
  cases hps : paraSplitF f rest with
  | nil => simp
  | cons p ps => simp

theorem paraSplitF_stripWs (fuel : Nat) :
    ∀ cs, cs.length < fuel → stripWs ((paraSplitF fuel cs).flatten) = stripWs cs := by
  induction fuel with
  | zero => intro cs h; omega
  | succ f ih =>
    intro cs hf
    cases cs with
    | nil => rfl
    | cons c rest =>
      cases hm : sepMatchAt (c :: rest) with
      | some k =>
        obtain ⟨hws, hk⟩ := sepMatchAt_ws _ _ hm
        have hlen : ((c :: rest).drop k).length < f := by
          rw [List.length_drop, List.length_cons]
          simp only [List.length_cons] at hf
          omega
        have hrec := ih _ hlen
        simp only [paraSplitF, hm, List.flatten_cons, List.nil_append, hrec]
        have hsplit : (c :: rest) = (c :: rest).take k ++ (c :: rest).drop k :=
          (List.take_append_drop k (c :: rest)).symm
        have htake : stripWs ((c :: rest).take k) = [] :=
          List.filter_eq_nil_iff.mpr (fun a ha => by simp [hws a ha])
        conv_rhs => rw [hsplit]
        rw [stripWs_append, htake, List.nil_append]
      | none =>
        have hlen : rest.length < f := by
          simp only [List.length_cons] at hf
          omega
        have hrec := ih rest hlen
        rw [paraSplitF_flatten_cons f c rest hm]
        unfold stripWs at hrec ⊢
        rw [List.filter_cons, List.filter_cons]
        cases hw : (!isWsChar c) <;> simp [hw, hrec]

theorem paraSplit_stripWs (cs : List Char) :
    stripWs ((paraSplit cs).flatten) = stripWs cs :=
  paraSplitF_stripWs _ cs (Nat.lt_succ_self _)

theorem paragraphs_ne_nil (t : List Char) (h : trimCh t ≠ []) : paragraphs t ≠ [] := by
  intro h0
  have hstrip : stripWs t ≠ [] := fun hs => h (trimCh_eq_nil_iff t |>.mpr hs)
  apply hstrip
  rw [← paraSplit_stripWs t]
  unfold paragraphs at h0
  unfold stripWs
  apply List.filter_eq_nil_iff.mpr
  intro a ha
  obtain ⟨p, hp, hap⟩ := List.mem_flatten.mp ha
  have hdrop := List.filter_eq_nil_iff.mp h0 p hp
  have hptrim : trimCh p = [] := by
    by_contra hne
    exact hdrop (by simp [List.isEmpty_eq_false.mpr hne])
  have hpstrip : stripWs p = [] := trimCh_eq_nil_iff p |>.mp hptrim
  unfold stripWs at hpstrip
  have hws := List.filter_eq_nil_iff.mp hpstrip a hap
  simpa using hws

theorem startChunks001_ne_nil (t : List Char) (h : trimCh t ≠ []) :
    startChunks001 t ≠ [] := by
  obtain ⟨p, hp⟩ := List.exists_mem_of_ne_nil _ (paragraphs_ne_nil t h)
  obtain ⟨g, hg⟩ := List.exists_mem_of_ne_nil _
    (chunk5_ne_nil (sentencesOr p (sentences001 p)) (sentencesOr_ne_nil _ _))
  apply List.ne_nil_of_mem (a := trimCh g.flatten)
  unfold startChunks001
  apply List.mem_flatten.mpr
  exact ⟨(chunk5 (sentencesOr p (sentences001 p))).map (fun g => trimCh g.flatten),
    List.mem_map_of_mem _ hp, List.mem_map_of_mem _ hg⟩

theorem mem_startChunks001_ne_nil (t : List Char) (c : List Char)
    (hc : c ∈ startChunks001 t) : c ≠ [] := by
  unfold startChunks001 at hc
  obtain ⟨L, hL, hcL⟩ := List.mem_flatten.mp hc
  obtain ⟨p, hp, hLp⟩ := List.mem_map.mp hL
  subst hLp
  obtain ⟨g, hg, hgc⟩ := List.mem_map.mp hcL
  subst hgc
  have hptrim : trimCh p ≠ [] := by
    have := (List.mem_filter.mp hp).2
    simpa [List.isEmpty_eq_false] using this
  exact trim_flatten_group_ne_nil p (sentences001 p) (sentences001_term p) hptrim g hg

/-! ### Equality of the two sentence scans on single-whitespace text -/

theorem noDoubleWs_tail (c : Char) (l : List Char) (h : noDoubleWs (c :: l) = true) :
    noDoubleWs l = true := by
  cases l with
  | nil => rfl
  | cons b t =>
    simp only [noDoubleWs, Bool.and_eq_true] at h
    exact h.2

theorem noDoubleWs_drop (l : List Char) (h : noDoubleWs l = true) (n : Nat) :
    noDoubleWs (l.drop n) = true := by
  induction n generalizing l with
  | zero => simpa using h
  | succ m ih =>
    cases l with
    | nil => simpa using h
    | cons c t =>
      rw [List.drop_succ_cons]
      exact ih t (noDoubleWs_tail c t h)

theorem sentMatchAt_eq_of_noDbl (cs : List Char) (h : noDoubleWs cs = true) :
    sentMatchAt000 cs = sentMatchAt001 cs := by
  unfold sentMatchAt000 sentMatchAt001
  cases hc : sentCore cs with
  | none => rfl
  | some abr =>
    obtain ⟨a, b, r2⟩ := abr
    have hr2 : r2 = cs.drop (a.length + b.length) := sentCore_rest cs a b r2 hc
    have hnd : noDoubleWs r2 = true := by
      rw [hr2]; exact noDoubleWs_drop cs h _
    cases hr : r2 with
    | nil => simp
    | cons d t =>
      by_cases hd : isWsChar d
      · have htail : t.takeWhile isWsChar = [] := by
          cases t with
          | nil => rfl
          | cons e u =>
            rw [hr] at hnd
            have he : isWsChar e = false := by
              rcases Bool.eq_false_or_eq_true (isWsChar e) with h1 | h1
              · exfalso
                simp [noDoubleWs, hd, h1] at hnd
              · exact h1
            rw [List.takeWhile_cons_of_neg (by simp [he])]
        have htw : (d :: t).takeWhile isWsChar = [d] := by
          rw [List.takeWhile_cons_of_pos hd, htail]
        simp only [htw, hd, List.isEmpty_cons, if_true]
        simp [List.drop_succ_cons]
      · have htw : (d :: t).takeWhile isWsChar = [] := by
          rw [List.takeWhile_cons_of_neg (by simp [hd])]
        simp [htw, hd]

theorem sentScanF_eq_of_noDbl (fuel : Nat) :
    ∀ cs, noDoubleWs cs = true →
      sentScanF sentMatchAt000 fuel cs = sentScanF sentMatchAt001 fuel cs := by
  induction fuel with
  | zero => intro cs h; rfl
  | succ f ih =>
    intro cs h
    cases cs with
    | nil => rfl
    | cons c rest =>
      have hm := sentMatchAt_eq_of_noDbl (c :: rest) h
      cases h0 : sentMatchAt000 (c :: rest) with
      | none =>
        have h1 : sentMatchAt001 (c :: rest) = none := hm ▸ h0
        simp only [sentScanF, h0, h1]
        exact ih rest (noDoubleWs_tail c rest h)
      | some pr =>
        obtain ⟨s, r⟩ := pr
        have h1 : sentMatchAt001 (c :: rest) = some (s, r) := hm ▸ h0
        obtain ⟨n, hn⟩ := (sentMatchAt000_props _ _ _ h0).2
        have hr : noDoubleWs r = true := by
          rw [hn]; exact noDoubleWs_drop _ h n
        simp only [sentScanF, h0, h1]
        rw [ih r hr]

theorem sentences_eq_of_noDbl (cs : List Char) (h : noDoubleWs cs = true) :
    sentences000 cs = sentences001 cs :=
  sentScanF_eq_of_noDbl _ cs h

/-! ### Positional score merge -/

theorem jsOrZero_eq_getD (o : Option Int) : jsOrZero o = o.getD 0 := by
  cases o with
  | none => rfl
  | some v =>
    by_cases hv : v = 0
    · simp [jsOrZero, hv]
    · simp [jsOrZero, hv]

theorem mergeScores_length (prev : List CaseEntry) (scores : List Int) :
    (mergeScores prev scores).length = prev.length := by
  induction prev generalizing scores with
  | nil => rfl
  | cons d ds ih => simp [mergeScores, ih]

theorem getD_tail_int (scores : List Int) (n : Nat) :
    scores.tail.getD n 0 = scores.getD (n + 1) 0 := by
  cases scores <;> simp [List.getD]

theorem head?_getD_int (scores : List Int) : scores.head?.getD 0 = scores.getD 0 0 := by
  cases scores <;> simp [List.getD]

theorem mergeScores_getElem? (prev : List CaseEntry) (scores : List Int) (i : Nat) :
    (mergeScores prev scores)[i]? =
      prev[i]?.map (fun d => { d with relevanceScore := some (scores.getD i 0) }) := by
  induction prev generalizing scores i with
  | nil => simp [mergeScores]
  | cons d ds ih =>
    cases i with
    | zero =>
      simp only [mergeScores, List.getElem?_cons_zero]
      rw [jsOrZero_eq_getD, head?_getD_int]
      rfl
    | succ n =>
      simp only [mergeScores, List.getElem?_cons_succ, ih]
      rw [getD_tail_int]

/-! ### Disclosure state machine -/

theorem step000_next_mono (s : AppState) :
    s.visibleIndex ≤ (step000 s CaseAction.next).visibleIndex := by
  unfold step000 nextParagraph
  by_cases h : s.visibleIndex < s.chunks.length
  · simp [h]
  · simp [h]

theorem step000_review_mono (s : AppState) :
    s.visibleIndex ≤ (step000 s CaseAction.review).visibleIndex := by
  unfold step000 handleReview000
  exact Nat.le_refl _

theorem step000_next_noop (s : AppState) (h : s.chunks.length ≤ s.visibleIndex) :
    step000 s CaseAction.next = s := by
  unfold step000 nextParagraph
  rw [if_neg (by omega)]

theorem visibleInv_step (s : AppState) (a : CaseAction)
    (hs : s.visibleIndex ≤ max 1 s.chunks.length) :
    (step000 s a).visibleIndex ≤ max 1 (step000 s a).chunks.length := by
  cases a with
  | start t =>
    unfold step000 startCase000
    by_cases h : (trimCh t).isEmpty
    · simpa [h] using hs
    · simp [h, Nat.le_max_left]
  | next =>
    unfold step000 nextParagraph
    by_cases h : s.visibleIndex < s.chunks.length
    · simp only [h, if_true]
      have : s.visibleIndex + 1 ≤ s.chunks.length := h
      exact le_trans this (Nat.le_max_right _ _)
    · simpa [h] using hs
  | review =>
    unfold step000 handleReview000
    simpa using hs
  | reset =>
    unfold step000 reset000
    simp

theorem run000_visible_le (as : List CaseAction) :
    (run000 as).visibleIndex ≤ max 1 (run000 as).chunks.length := by
  unfold run000
  have main : ∀ (l : List CaseAction) (s : AppState),
      s.visibleIndex ≤ max 1 s.chunks.length →
      (l.foldl step000 s).visibleIndex ≤ max 1 (l.foldl step000 s).chunks.length := by
    intro l
    induction l with
    | nil => intro s hs; exact hs
    | cons a rest ih =>
      intro s hs
      exact ih (step000 s a) (visibleInv_step s a hs)
  exact main as initState (by simp [initState])

/-! ### Claim theorems -/

/--
C1: the claim states that every accepted narrative has all Final Diagnosis
marker lines removed before chunking, so no disclosed chunk contains the
marker.  The part_001 implementation performs no marker stripping: on the
narrative "Fever.\n\nFinal Diagnosis: Flu" its chunk list contains the full
marker line verbatim, while the sibling part_000 implementation strips it.
This evaluates the code at the failing input.
-/
theorem C1_part001_chunks_disclose_marker :
    startChunks001 "Fever.\n\nFinal Diagnosis: Flu".data =
      ["Fever.".data, "Final Diagnosis: Flu".data] ∧
    hasFDMatch "Final Diagnosis: Flu".data = true ∧
    containsSeq "Final Diagnosis".data "Final Diagnosis: Flu".data = true ∧
    startChunks000 "Fever.\n\nFinal Diagnosis: Flu".data = ["Fever.".data] :=
  ⟨by decide, by decide, by decide, by decide⟩

/--
C2: when at least one line of the narrative matches the Final Diagnosis
pattern, extractFinalDiagnosis returns exactly the per-line result (the
trimmed captured remainder) of the last matching line: the backward scan
returns the first match it finds, which is the last matching line of the
text.
-/
theorem C2_extract_returns_last_matching_line (t l : List Char)
    (h : ((splitLines t).filter (fun x => (lineFD x).isSome)).getLast? = some l) :
    extractFinalDiagnosis t = (lineFD l).getD [] := by
  rw [extract_eq_last_line, h]
  rfl

theorem C2_extract_returns_last_matching_line_witness :
    extractFinalDiagnosis "Final Diagnosis: A\nFinal Diagnosis: B".data =
      (lineFD "Final Diagnosis: B".data).getD [] ∧
    (lineFD "Final Diagnosis: B".data).getD [] = "B".data :=
  ⟨C2_extract_returns_last_matching_line _ _ (by decide), by decide⟩

/--
C3: chunking is total-content-preserving modulo whitespace.  Grouping into
blocks of five is an exact partition of the sentence list (no sentence
dropped or duplicated), and for both implementations the concatenation of
all produced chunks equals, after removing whitespace, the concatenation of
the sentence sequence the code actually chunks.
-/
theorem C3_chunking_preserves_sentence_content :
    (∀ ss : List (List Char), (chunk5 ss).flatten = ss) ∧
    (∀ t : List Char,
      stripWs (startChunks000 t).flatten =
        stripWs (sentencesOr (trimCh (replaceFD t))
          (sentences000 (trimCh (replaceFD t)))).flatten) ∧
    (∀ t : List Char,
      stripWs (startChunks001 t).flatten =
        stripWs (((paragraphs t).map
          (fun p => (sentencesOr p (sentences001 p)).flatten)).flatten)) :=
  ⟨chunk5_flatten, startChunks000_content, startChunks001_content⟩

/--
C4 counterexample: the claim as stated is false.  First, starting a case
whose narrative is nothing but the marker line yields zero chunks while the
visible count is set to one, exceeding the chunk count in a reachable
state.  Second, starting a new case mid-session drops the visible count
from two back to one without a full reset.
-/
theorem C4_counterexample :
    ((run000 [CaseAction.start "Final Diagnosis: X".data]).chunks.length <
      (run000 [CaseAction.start "Final Diagnosis: X".data]).visibleIndex) ∧
    ((run000 [CaseAction.start "A. B. C. D. E. F.".data, CaseAction.next,
        CaseAction.start "A. B. C. D. E. F.".data]).visibleIndex <
      (run000 [CaseAction.start "A. B. C. D. E. F.".data, CaseAction.next]).visibleIndex) :=
  ⟨by decide, by decide⟩

/--
C4 (amended): in every reachable state the visible count is at most
max 1 (chunk count); the count never decreases under reveal-next or review
(only reset and start-case can lower it); and reveal-next when all chunks
are already visible is a strict no-op on the state.
-/
theorem C4_visible_count_invariant :
    (∀ as : List CaseAction,
      (run000 as).visibleIndex ≤ max 1 (run000 as).chunks.length) ∧
    (∀ s : AppState, s.visibleIndex ≤ (step000 s CaseAction.next).visibleIndex ∧
      s.visibleIndex ≤ (step000 s CaseAction.review).visibleIndex) ∧
    (∀ s : AppState, s.chunks.length ≤ s.visibleIndex → step000 s CaseAction.next = s) :=
  ⟨run000_visible_le, fun s => ⟨step000_next_mono s, step000_review_mono s⟩,
    step000_next_noop⟩

theorem C4_visible_count_invariant_witness :
    step000 initState CaseAction.next = initState :=
  C4_visible_count_invariant.2.2 initState (by decide)

/--
C5: the relevance-score merge is positional and order-preserving: the
merged list has the same length, and the entry at every index keeps its
identifier and text and receives exactly the score at the same index of the
returned score list, a missing score defaulting to zero.
-/
theorem C5_merge_positional (prev : List CaseEntry) (scores : List Int) :
    (mergeScores prev scores).length = prev.length ∧
    ∀ i : Nat, (mergeScores prev scores)[i]? =
      prev[i]?.map (fun d => { d with relevanceScore := some (scores.getD i 0) }) :=
  ⟨mergeScores_length prev scores, mergeScores_getElem? prev scores⟩

/--
C6: when no line of the narrative matches the Final Diagnosis pattern,
extraction returns the empty string; the part_000 review handler stores the
explicit non-empty sentinel and its fetch guard issues no service call and
never raises the loading flag; the part_001 handler stores the empty string
but displays a non-empty sentinel, and its fetch guard likewise issues no
service call and shows no loading state.
-/
theorem C6_no_marker_sentinel_and_no_calls (s : AppState)
    (pts : List TeachingPoint) (scores : List Int)
    (h : hasMarkerLine s.caseText = false) :
    extractFinalDiagnosis s.caseText = [] ∧
    (handleReview000 s).finalDiagnosis = sentinel000 ∧
    sentinel000 ≠ [] ∧
    fetchTeachingData (handleReview000 s) pts scores =
      { state := handleReview000 s, calls := [], loadingShown := false } ∧
    (handleReview001 s).finalDiagnosis = [] ∧
    displayedDiagnosis001 (handleReview001 s) ≠ [] ∧
    fetchTeaching (handleReview001 s) pts scores =
      { state := handleReview001 s, calls := [], loadingShown := false } := by
  have hex : extractFinalDiagnosis s.caseText = [] := extract_eq_nil_of_no_marker _ h
  have hfd : (handleReview000 s).finalDiagnosis = sentinel000 := by
    unfold handleReview000
    rw [hex]
    rfl
  have hfd1 : (handleReview001 s).finalDiagnosis = [] := by
    unfold handleReview001
    exact hex
  refine ⟨hex, hfd, by decide, ?_, hfd1, ?_, ?_⟩
  · unfold fetchTeachingData
    rw [hfd, if_pos (by decide)]
  · unfold displayedDiagnosis001
    rw [hfd1]
    simp
  · unfold fetchTeaching
    rw [hfd1, if_pos (by decide)]

theorem C6_no_marker_sentinel_and_no_calls_witness :
    fetchTeachingData
        (handleReview000 { initState with caseText := "Fever. Cough.".data }) [] [] =
      { state := handleReview000 { initState with caseText := "Fever. Cough.".data },
        calls := [], loadingShown := false } :=
  (C6_no_marker_sentinel_and_no_calls { initState with caseText := "Fever. Cough.".data }
    [] [] (by decide)).2.2.2.1

/--
C7 counterexample: the claim that the two service functions never raise on
any internal failure is false for transport errors: the generateContent
await sits outside the try block, so a transport error propagates to the
caller from both functions.
-/
theorem C7_counterexample :
    getTeachingPoints "key".data (Except.error () : Except Unit GenResponse)
      (fun _ => none) = Except.error () ∧
    assessDifferentials "key".data (Except.error () : Except Unit GenResponse)
      (fun _ => none) ["Sepsis".data] = Except.error () :=
  ⟨rfl, rfl⟩

/--
C7 (amended): on a missing API key or an unparseable response payload,
getTeachingPoints returns the empty list and assessDifferentials returns a
zero-filled list of the same length as its input, without raising; a
transport error, however, propagates to the caller unchanged.
-/
theorem C7_service_failure_containment {E : Type} (key : List Char)
    (gen : Except E GenResponse) (parseTP : List Char → Option (List TeachingPoint))
    (parseNums : List Char → Option (List Int)) (diffs : List (List Char)) :
    (key = [] → getTeachingPoints key gen parseTP = Except.ok [] ∧
      assessDifferentials key gen parseNums diffs =
        Except.ok (diffs.map (fun _ => (0 : Int)))) ∧
    (∀ r, gen = Except.ok r → parseTP (payloadOf r) = none →
      getTeachingPoints key gen parseTP = Except.ok []) ∧
    (∀ r, gen = Except.ok r → parseNums (payloadOf r) = none →
      assessDifferentials key gen parseNums diffs =
        Except.ok (diffs.map (fun _ => (0 : Int)))) ∧
    (∀ e, gen = Except.error e → key ≠ [] →
      getTeachingPoints key gen parseTP = Except.error e ∧
      assessDifferentials key gen parseNums diffs = Except.error e) ∧
    (diffs.map (fun _ => (0 : Int))).length = diffs.length := by
  refine ⟨?_, ?_, ?_, ?_, by simp⟩
  · intro hk
    subst hk
    exact ⟨by simp [getTeachingPoints], by simp [assessDifferentials]⟩
  · intro r hg hp
    subst hg
    unfold getTeachingPoints
    by_cases hk : key.isEmpty
    · simp [hk]
    · simp [hk, hp]
  · intro r hg hp
    subst hg
    unfold assessDifferentials
    by_cases hk : key.isEmpty
    · simp [hk]
    · simp [hk, hp]
  · intro e hg hk
    subst hg
    have hk2 : key.isEmpty = false := List.isEmpty_eq_false.mpr hk
    exact ⟨by simp [getTeachingPoints, hk2], by simp [assessDifferentials, hk2]⟩

theorem C7_service_failure_containment_witness :
    getTeachingPoints "key".data
      (Except.ok ⟨"bad json".data⟩ : Except Unit GenResponse) (fun _ => none) =
      Except.ok [] :=
  (C7_service_failure_containment "key".data _ (fun _ => none) (fun _ => none) []).2.1
    _ rfl rfl

theorem startChunks000_fallback (t : List Char)
    (hs : sentences000 (trimCh (replaceFD t)) = [])
    (h : trimCh (replaceFD t) ≠ []) :
    startChunks000 t = [trimCh (replaceFD t)] := by
  unfold startChunks000
  show (((chunk5 (sentencesOr (trimCh (replaceFD t))
      (sentences000 (trimCh (replaceFD t))))).map (fun g => trimCh g.flatten)).filter
      (fun c => !c.isEmpty)) = [trimCh (replaceFD t)]
  rw [hs]
  unfold sentencesOr
  rw [List.isEmpty_nil, if_pos rfl, chunk5_single]
  have hflat : ([trimCh (replaceFD t)] : List (List Char)).flatten = trimCh (replaceFD t) := by
    simp
  simp only [List.map_cons, List.map_nil, hflat, trimCh_idem]
  simp [List.filter_cons, List.isEmpty_eq_false.mpr h]

theorem startChunks001_fallback (t : List Char) (hsep : hasSepMatch t = false)
    (h : trimCh t ≠ []) (hs : sentences001 t = []) :
    startChunks001 t = [trimCh t] := by
  unfold startChunks001
  have hparas : paragraphs t = [t] := by
    unfold paragraphs
    rw [paraSplit_eq_single t hsep]
    simp [List.filter_cons, List.isEmpty_eq_false.mpr h]
  rw [hparas]
  show ([t].map (fun para =>
    (chunk5 (sentencesOr para (sentences001 para))).map
      (fun g => trimCh g.flatten))).flatten = [trimCh t]
  rw [List.map_singleton, hs]
  unfold sentencesOr
  rw [List.isEmpty_nil, if_pos rfl, chunk5_single]
  simp

/--
C8 counterexample: the claim that every non-blank narrative yields a
nonempty chunk sequence is false for part_000: the accepted narrative
consisting of only the marker line strips to the empty text and produces
zero chunks.
-/
theorem C8_counterexample :
    trimCh "Final Diagnosis: X".data ≠ [] ∧
    startChunks000 "Final Diagnosis: X".data = [] :=
  ⟨by decide, by decide⟩

/--
C8 (amended): part_000 produces a nonempty chunk sequence whenever the
marker-stripped trimmed narrative is nonempty (and in particular a
terminator-free text becomes a single one-element block); part_001 produces
a nonempty chunk sequence for every non-blank narrative; and in both
implementations every emitted block is nonempty after trimming.
-/
theorem C8_nonempty_chunks (t : List Char) :
    (trimCh (replaceFD t) ≠ [] → startChunks000 t ≠ []) ∧
    (∀ c ∈ startChunks000 t, c ≠ []) ∧
    (trimCh t ≠ [] → startChunks001 t ≠ []) ∧
    (∀ c ∈ startChunks001 t, c ≠ []) ∧
    (sentences000 (trimCh (replaceFD t)) = [] → trimCh (replaceFD t) ≠ [] →
      startChunks000 t = [trimCh (replaceFD t)]) ∧
    (hasSepMatch t = false → trimCh t ≠ [] → sentences001 t = [] →
      startChunks001 t = [trimCh t]) :=
  ⟨startChunks000_ne_nil t, mem_startChunks000_ne_nil t, startChunks001_ne_nil t,
    mem_startChunks001_ne_nil t,
    fun hs h => startChunks000_fallback t hs h,
    fun hsep h hs => startChunks001_fallback t hsep h hs⟩

theorem C8_nonempty_chunks_witness :
    startChunks000 "ABC".data = [trimCh (replaceFD "ABC".data)] ∧
    startChunks000 "Fever. Cough.".data ≠ [] :=
  ⟨(C8_nonempty_chunks "ABC".data).2.2.2.2.1 (by decide) (by decide),
    (C8_nonempty_chunks "Fever. Cough.".data).1 (by decide)⟩

/--
C9 counterexample: the claim that a full reset empties all four entry lists
and clears the chunk state is false: the part_000 reset leaves the
differential list untouched, and the part_001 reset additionally leaves the
chunk sequence and visible count untouched.
-/
theorem C9_counterexample :
    (reset000 { initState with
        differentials :=
          [{ id := "d1".data, text := "Sepsis".data, relevanceScore := none }] }).differentials =
      [{ id := "d1".data, text := "Sepsis".data, relevanceScore := none }] ∧
    (reset001 { initState with
        chunks := ["A.".data], visibleIndex := 1 }).chunks = ["A.".data] ∧
    (reset001 { initState with
        chunks := ["A.".data], visibleIndex := 1 }).visibleIndex = 1 :=
  ⟨rfl, rfl, rfl⟩

/--
C9 (amended): reset returns the session to the no-case-loaded state,
clearing review mode, case text, diagnosis and teaching points; the
part_000 reset also empties the chunk sequence and zeroes the visible
count, while the part_001 reset leaves both untouched; neither reset clears
the four entry lists, which are instead emptied by the next accepted
start-case.
-/
theorem C9_reset_behavior (s : AppState) (t : List Char) :
    (trimCh t ≠ [] →
      (startCase000 t s).differentials = [] ∧ (startCase000 t s).labs = [] ∧
      (startCase000 t s).diagnostics = [] ∧ (startCase000 t s).treatments = []) ∧
    (reset000 s).isCaseLoaded = false ∧ (reset000 s).reviewMode = false ∧
    (reset000 s).caseText = [] ∧ (reset000 s).finalDiagnosis = [] ∧
    (reset000 s).teachingPoints = [] ∧ (reset000 s).chunks = [] ∧
    (reset000 s).visibleIndex = 0 ∧
    (reset000 s).differentials = s.differentials ∧ (reset000 s).labs = s.labs ∧
    (reset000 s).diagnostics = s.diagnostics ∧ (reset000 s).treatments = s.treatments ∧
    (reset001 s).isCaseLoaded = false ∧ (reset001 s).reviewMode = false ∧
    (reset001 s).caseText = [] ∧ (reset001 s).finalDiagnosis = [] ∧
    (reset001 s).teachingPoints = [] ∧
    (reset001 s).chunks = s.chunks ∧ (reset001 s).visibleIndex = s.visibleIndex ∧
    (reset001 s).differentials = s.differentials := by
  refine ⟨?_, rfl, rfl, rfl, rfl, rfl, rfl, rfl, rfl, rfl, rfl, rfl, rfl, rfl, rfl, rfl,
    rfl, rfl, rfl, rfl⟩
  intro ht
  unfold startCase000
  rw [if_neg (by simp [List.isEmpty_eq_false.mpr ht])]
  exact ⟨rfl, rfl, rfl, rfl⟩

theorem C9_reset_behavior_witness :
    (startCase000 "A.".data initState).differentials = [] :=
  ((C9_reset_behavior initState "A.".data).1 (by decide)).1

/--
C10 counterexample: on narratives satisfying all of the stated
preconditions (non-blank, no blank-line paragraph separator, no Final
Diagnosis marker) the two chunking implementations can still differ: a
whitespace run followed by a stray terminator changes the internal spacing
of the chunk, and leading whitespace that part_000 trims away changes which
leading characters survive as chunk content.
-/
theorem C10_counterexample :
    (trimCh "A.  .B.".data ≠ [] ∧ hasSepMatch "A.  .B.".data = false ∧
      hasFDMatch "A.  .B.".data = false ∧
      startChunks000 "A.  .B.".data ≠ startChunks001 "A.  .B.".data) ∧
    (trimCh " . A.".data ≠ [] ∧ hasSepMatch " . A.".data = false ∧
      hasFDMatch " . A.".data = false ∧
      startChunks000 " . A.".data ≠ startChunks001 " . A.".data) :=
  ⟨⟨by decide, by decide, by decide, by decide⟩,
    ⟨by decide, by decide, by decide, by decide⟩⟩

/--
C10 (amended): on every nonempty narrative that is already trimmed,
contains no Final Diagnosis match, no blank-line paragraph separator, and
no two adjacent whitespace characters, the two chunking implementations
produce identical chunk sequences.
-/
theorem C10_chunkers_agree (t : List Char) (h0 : t ≠ []) (h1 : trimCh t = t)
    (h2 : hasFDMatch t = false) (h3 : hasSepMatch t = false)
    (h4 : noDoubleWs t = true) :
    startChunks000 t = startChunks001 t := by
  have hclean : trimCh (replaceFD t) = t := by rw [replaceFD_eq_self t h2, h1]
  have htrim : trimCh t ≠ [] := by rw [h1]; exact h0
  have hsents : sentences000 t = sentences001 t := sentences_eq_of_noDbl t h4
  have hparas : paragraphs t = [t] := by
    unfold paragraphs
    rw [paraSplit_eq_single t h3]
    simp [List.filter_cons, List.isEmpty_eq_false.mpr htrim]
  unfold startChunks000 startChunks001
  rw [hclean]
  show (((chunk5 (sentencesOr t (sentences000 t))).map (fun g => trimCh g.flatten)).filter
      (fun c => !c.isEmpty)) =
    ((paragraphs t).map (fun para => (chunk5 (sentencesOr para (sentences001 para))).map
      (fun g => trimCh g.flatten))).flatten
  rw [hsents, hparas]
  simp only [List.map_cons, List.map_nil, List.flatten_cons, List.flatten_nil,
    List.append_nil]
  apply List.filter_eq_self.mpr
  intro x hx
  obtain ⟨g, hg, hgx⟩ := List.mem_map.mp hx
  subst hgx
  simp [List.isEmpty_eq_false.mpr
    (trim_flatten_group_ne_nil t (sentences001 t) (sentences001_term t) htrim g hg)]

theorem C10_chunkers_agree_witness :
    startChunks000 "A. B. C.".data = startChunks001 "A. B. C.".data :=
  C10_chunkers_agree "A. B. C.".data (by decide) (by decide) (by decide) (by decide)
    (by decide)
